import Mathlib

/-!
Verification development for the VGA-IISc story/image generation pipeline.

The repository drives a multi-stage generative pipeline: a story stage that
extracts a JSON contract from a free-text LLM response (first brace to last
brace, then a strict JSON parse), per-item image stages that save generated
assets under deterministic filenames, and a thin HTTP layer whose success or
failure decision is Python truthiness of the stage result.

This file embeds those pieces shallowly: the JSON value model with a
serializer and a strict fuel-indexed parser (modelling `json.loads`),
Python's `str.find` / `str.rfind` / slice semantics, and the stage and API
functions from `story_generator.py`, `Story-2.py`, `Story3.py`,
`new_server.py` and `testing.py`.  The generative capability is a parameter:
a call either raises (`Except.error`) or returns a response part list.
-/

set_option linter.unusedVariables false

/-! ## Character constants (kept out of string literals) -/

/-- The left brace character. -/
def cLB : Char := Char.ofNat 123

/-- The right brace character. -/
def cRB : Char := Char.ofNat 125

/-- The double quote character. -/
def cQ : Char := Char.ofNat 34

/-- The backslash character. -/
def cBS : Char := Char.ofNat 92

/-- The newline character. -/
def cNL : Char := Char.ofNat 10

/-- The tab character. -/
def cTab : Char := Char.ofNat 9

/-- The carriage return character. -/
def cCR : Char := Char.ofNat 13

/-- The single quote character. -/
def cApos : Char := Char.ofNat 39

/-! ## JSON value model

`json.loads` on the extracted contract returns a Python value built from
objects, arrays, strings, numbers, booleans and null.  Numbers are modelled
as integers (the contracts in this repository carry only strings, lists and
objects).  Strings are lists of characters. -/

/-- A JSON value as produced by a strict JSON parse. -/
inductive Json where
  | null : Json
  | bool (b : Bool) : Json
  | num (n : Int) : Json
  | str (s : List Char) : Json
  | arr (elems : List Json) : Json
  | obj (members : List (List Char × Json)) : Json

mutual
/-- Node-count size of a JSON value, used as parser fuel. -/
def jsize : Json → Nat
  | .arr xs => 1 + jsizeL xs
  | .obj ms => 1 + jsizeM ms
  | _ => 1

/-- Node-count size of a JSON array element list. -/
def jsizeL : List Json → Nat
  | [] => 1
  | x :: xs => jsize x + jsizeL xs

/-- Node-count size of a JSON object member list. -/
def jsizeM : List (List Char × Json) → Nat
  | [] => 1
  | (_, v) :: ms => jsize v + jsizeM ms
end

/-! ## JSON serializer -/

/-- The character for a decimal digit value. -/
def digitChar (d : Nat) : Char := Char.ofNat (48 + d)

/-- The lowercase hex character for a hex digit value. -/
def hexChar (d : Nat) : Char := Char.ofNat (if d < 10 then 48 + d else 87 + d)

/-- Decimal digit characters of a natural number, most significant first. -/
def natChars (n : Nat) : List Char :=
  if n = 0 then [digitChar 0] else ((Nat.digits 10 n).reverse).map digitChar

/-- Serialization of an integer JSON number. -/
def serInt (n : Int) : List Char :=
  if n < 0 then Char.ofNat 45 :: natChars n.natAbs else natChars n.toNat

/-- JSON escape of one character inside a string literal: quote and
backslash get a backslash escape, control characters a `u00XX` escape,
everything else stands for itself. -/
def escChar (c : Char) : List Char :=
  if c = cQ then [cBS, cQ]
  else if c = cBS then [cBS, cBS]
  else if c.toNat < 32 then
    [cBS, 'u', '0', '0', hexChar (c.toNat / 16), hexChar (c.toNat % 16)]
  else [c]

/-- JSON escape of a whole string body. -/
def escStr : List Char → List Char
  | [] => []
  | c :: rest => escChar c ++ escStr rest

/-- Serialization of a JSON string literal, quotes included. -/
def serStr (s : List Char) : List Char := cQ :: escStr s ++ [cQ]

mutual
/-- Compact JSON serialization (no added whitespace), as a standard JSON
serializer such as `json.dumps` produces for the contract payloads. -/
def serV : Json → List Char
  | .null => 'n' :: 'u' :: ['l', 'l']
  | .bool true => 't' :: 'r' :: ['u', 'e']
  | .bool false => 'f' :: 'a' :: ['l', 's', 'e']
  | .num n => serInt n
  | .str s => serStr s
  | .arr xs => '[' :: serElems xs ++ [']']
  | .obj ms => cLB :: serMembers ms ++ [cRB]

/-- Serialization of array elements, comma separated. -/
def serElems : List Json → List Char
  | [] => []
  | [x] => serV x
  | x :: y :: xs => serV x ++ ',' :: serElems (y :: xs)

/-- Serialization of object members, comma separated. -/
def serMembers : List (List Char × Json) → List Char
  | [] => []
  | [(k, v)] => serStr k ++ ':' :: serV v
  | (k, v) :: m :: ms => serStr k ++ ':' :: serV v ++ ',' :: serMembers (m :: ms)
end

/-! ## Strict JSON parser (model of `json.loads`) -/

/-- Is a character JSON whitespace? -/
def isWs (c : Char) : Bool :=
  c.toNat = 32 || c.toNat = 10 || c.toNat = 9 || c.toNat = 13

/-- Drop leading JSON whitespace. -/
def skipWs : List Char → List Char
  | [] => []
  | c :: rest => if isWs c then skipWs rest else c :: rest

/-- Decimal digit value of a character, if it is a digit. -/
def digitVal (c : Char) : Option Nat :=
  if 48 ≤ c.toNat ∧ c.toNat ≤ 57 then some (c.toNat - 48) else none

/-- Hex digit value of a character, if it is a hex digit. -/
def hexVal (c : Char) : Option Nat :=
  if 48 ≤ c.toNat ∧ c.toNat ≤ 57 then some (c.toNat - 48)
  else if 97 ≤ c.toNat ∧ c.toNat ≤ 102 then some (c.toNat - 87)
  else if 65 ≤ c.toNat ∧ c.toNat ≤ 70 then some (c.toNat - 55)
  else none

/-- Take the leading run of decimal digits, returning their values most
significant first together with the rest of the input. -/
def takeDigits : List Char → List Nat × List Char
  | [] => ([], [])
  | c :: rest =>
    match digitVal c with
    | some d => let p := takeDigits rest; (d :: p.1, p.2)
    | none => ([], c :: rest)

/-- Parse a JSON natural number literal (rejecting leading zeros). -/
def parseNat (l : List Char) : Option (Nat × List Char) :=
  match takeDigits l with
  | ([], _) => none
  | (ds, r) =>
    if 1 < ds.length ∧ ds.head? = some 0 then none
    else some (Nat.ofDigits 10 ds.reverse, r)

/-- Unescape value of a single-character JSON escape. -/
def unescChar (e : Char) : Option Char :=
  if e.toNat = 34 then some cQ
  else if e.toNat = 92 then some cBS
  else if e.toNat = 47 then some (Char.ofNat 47)
  else if e.toNat = 110 then some cNL
  else if e.toNat = 116 then some cTab
  else if e.toNat = 114 then some cCR
  else if e.toNat = 98 then some (Char.ofNat 8)
  else if e.toNat = 102 then some (Char.ofNat 12)
  else none

/-- Parse the body of a JSON string literal after the opening quote,
rejecting raw control characters as a strict parser does. -/
def parseStrBody : List Char → Option (List Char × List Char)
  | [] => none
  | c :: rest =>
    if c.toNat = 34 then some ([], rest)
    else if c.toNat = 92 then
      match rest with
      | [] => none
      | e :: rest2 =>
        if e.toNat = 117 then
          match rest2 with
          | h1 :: h2 :: h3 :: h4 :: rest3 =>
            match hexVal h1, hexVal h2, hexVal h3, hexVal h4 with
            | some a, some b, some c3, some d =>
              (parseStrBody rest3).map
                (fun p => (Char.ofNat (((a * 16 + b) * 16 + c3) * 16 + d) :: p.1, p.2))
            | _, _, _, _ => none
          | _ => none
        else
          match unescChar e with
          | some u => (parseStrBody rest2).map (fun p => (u :: p.1, p.2))
          | none => none
    else if c.toNat < 32 then none
    else (parseStrBody rest).map (fun p => (c :: p.1, p.2))

/-- Parse the elements of a nonempty JSON array given a value parser; the
fuel bounds the number of elements. -/
def parseElemsWith (pv : List Char → Option (Json × List Char)) :
    Nat → List Char → Option (List Json × List Char)
  | 0, _ => none
  | g + 1, l =>
    match pv l with
    | none => none
    | some (v, r) =>
      match skipWs r with
      | [] => none
      | c :: r2 =>
        if c.toNat = 44 then
          (parseElemsWith pv g r2).map (fun p => (v :: p.1, p.2))
        else if c.toNat = 93 then some ([v], r2)
        else none

/-- Parse the members of a nonempty JSON object given a value parser; the
fuel bounds the number of members. -/
def parseMembersWith (pv : List Char → Option (Json × List Char)) :
    Nat → List Char → Option (List (List Char × Json) × List Char)
  | 0, _ => none
  | g + 1, l =>
    match l with
    | [] => none
    | c :: rest =>
      if c.toNat = 34 then
        match parseStrBody rest with
        | none => none
        | some (k, r1) =>
          match skipWs r1 with
          | [] => none
          | c2 :: r2 =>
            if c2.toNat = 58 then
              match pv r2 with
              | none => none
              | some (v, r3) =>
                match skipWs r3 with
                | [] => none
                | c3 :: r4 =>
                  if c3.toNat = 44 then
                    (parseMembersWith pv g (skipWs r4)).map
                      (fun p => ((k, v) :: p.1, p.2))
                  else if c3.toNat = 125 then some ([(k, v)], r4)
                  else none
            else none
      else none

/-- Fuel-indexed strict JSON value parser.  The fuel bounds the total node
count of the parsed value. -/
def parseVal : Nat → List Char → Option (Json × List Char)
  | 0 => fun _ => none
  | f + 1 => fun input =>
    match skipWs input with
    | [] => none
    | c :: rest =>
      if c.toNat = 123 then
        match skipWs rest with
        | [] => none
        | c2 :: r2 =>
          if c2.toNat = 125 then some (.obj [], r2)
          else
            match parseMembersWith (parseVal f) f (c2 :: r2) with
            | some (ms, r) => some (.obj ms, r)
            | none => none
      else if c.toNat = 91 then
        match skipWs rest with
        | [] => none
        | c2 :: r2 =>
          if c2.toNat = 93 then some (.arr [], r2)
          else
            match parseElemsWith (parseVal f) f (c2 :: r2) with
            | some (xs, r) => some (.arr xs, r)
            | none => none
      else if c.toNat = 34 then
        match parseStrBody rest with
        | some (s, r) => some (.str s, r)
        | none => none
      else if c.toNat = 116 then
        match rest with
        | r1 :: r2 :: r3 :: rr =>
          if r1.toNat = 114 ∧ r2.toNat = 117 ∧ r3.toNat = 101 then
            some (.bool true, rr)
          else none
        | _ => none
      else if c.toNat = 102 then
        match rest with
        | r1 :: r2 :: r3 :: r4 :: rr =>
          if r1.toNat = 97 ∧ r2.toNat = 108 ∧ r3.toNat = 115 ∧ r4.toNat = 101 then
            some (.bool false, rr)
          else none
        | _ => none
      else if c.toNat = 110 then
        match rest with
        | r1 :: r2 :: r3 :: rr =>
          if r1.toNat = 117 ∧ r2.toNat = 108 ∧ r3.toNat = 108 then
            some (.null, rr)
          else none
        | _ => none
      else if c.toNat = 45 then
        match parseNat rest with
        | some (n, r) => some (.num (-(n : Int)), r)
        | none => none
      else
        match digitVal c with
        | some _ =>
          match parseNat (c :: rest) with
          | some (n, r) => some (.num (n : Int), r)
          | none => none
        | none => none

/-- Model of Python `json.loads`: parse one JSON value and require that
only whitespace remains. -/
def json_loads (l : List Char) : Option Json :=
  match parseVal (l.length + 1) l with
  | some (v, r) => if skipWs r = [] then some v else none
  | none => none

/-! ## Python string primitives: `find`, `rfind`, slicing -/

/-- Index of the first occurrence of a character, if any. -/
def findAux : List Char → Char → Option Nat
  | [], _ => none
  | c :: rest, t => if c = t then some 0 else (findAux rest t).map (· + 1)

/-- Index of the last occurrence of a character, if any. -/
def rfindAux : List Char → Char → Option Nat
  | [], _ => none
  | c :: rest, t =>
    match rfindAux rest t with
    | some i => some (i + 1)
    | none => if c = t then some 0 else none

/-- Python `str.find`: first index or `-1`. -/
def pyFind (l : List Char) (t : Char) : Int :=
  match findAux l t with
  | some i => (i : Int)
  | none => -1

/-- Python `str.rfind`: last index or `-1`. -/
def pyRfind (l : List Char) (t : Char) : Int :=
  match rfindAux l t with
  | some i => (i : Int)
  | none => -1

/-- Python slice-bound normalization: negative indices count from the end,
then the bound is clamped to `[0, len]`. -/
def clampIdx (len : Nat) (i : Int) : Nat :=
  let j : Int := if i < 0 then i + len else i
  if j < 0 then 0 else min j.toNat len

/-- Python slice `l[a:b]` with step 1. -/
def pySlice (l : List Char) (a b : Int) : List Char :=
  let s := clampIdx l.length a
  let e := clampIdx l.length b
  (l.drop s).take (e - s)

/-! ## Contract extraction (the shared `find` / `rfind` / `json.loads` idiom)

`generate_story_and_characters` (all three generator files) runs
`response_text[response_text.find(lbrace):response_text.rfind(rbrace)+1]`
through `json.loads` inside a `try` that converts `JSONDecodeError` and
`IndexError` to a returned `None`. -/

/-- The brace-to-brace slice of a response text. -/
def contractSlice (resp : List Char) : List Char :=
  pySlice resp (pyFind resp cLB) (pyRfind resp cRB + 1)

/-- Contract extraction: slice from first left brace to last right brace,
then strict JSON parse; parse failure becomes `none`. -/
def extract_contract (resp : List Char) : Option Json :=
  json_loads (contractSlice resp)

/-- `Story3.generate_scene_descriptions` extraction: same slice, but with an
explicit guard raising (hence returning `none`) when `find` returned `-1` or
`rfind` returned `-1`. -/
def scene_descriptions_extract (resp : List Char) : Option Json :=
  let start := pyFind resp cLB
  let stop := pyRfind resp cRB + 1
  if start = -1 ∨ stop = 0 then none
  else json_loads (pySlice resp start stop)

/-! ## Generative capability and stage model

The underlying capability either raises (modelled as `Except.error`) or
returns a response whose content is a list of parts, each part optionally
carrying inline image bytes. -/

/-- An exception raised by the generative capability. -/
structure GenError where
  cause : String
deriving DecidableEq

/-- One part of a multi-modal response: text, or inline image bytes. -/
inductive RespPart where
  | text (s : String)
  | inlineData (data : List Nat)
deriving DecidableEq

/-- The first inline-data payload in a response part list, as found by the
`for part in response...parts: if part.inline_data:` loop. -/
def firstInlineData : List RespPart → Option (List Nat)
  | [] => none
  | .inlineData d :: _ => some d
  | .text _ :: rest => firstInlineData rest

/-- A filesystem keyed by filename: `image.save(filename)` overwrites. -/
abbrev FileSystem := List (List Char × List Nat)

/-- Write a file, replacing any previous file of the same name. -/
def fsWrite (fs : FileSystem) (name : List Char) (data : List Nat) : FileSystem :=
  (name, data) :: fs.filter (fun p => p.1 ≠ name)

/-- Read a file by name. -/
def fsRead (fs : FileSystem) (name : List Char) : Option (List Nat) :=
  (fs.find? (fun p => p.1 = name)).map (·.2)

/-- Number of stored entries under a name. -/
def fsCount (fs : FileSystem) (name : List Char) : Nat :=
  (fs.filter (fun p => p.1 = name)).length

/-- Python `str.replace(' ', '_')` on a character list. -/
def pyReplaceSpace (s : List Char) : List Char :=
  s.map (fun c => if c.toNat = 32 then Char.ofNat 95 else c)

/-- Python `str.lower` on a character list. -/
def pyLower (s : List Char) : List Char := s.map Char.toLower

/-! ## Story stage (`story_generator.py` lines 49-65)

The `story_chain.invoke` call sits outside the `try`; only the slice and
`json.loads` are guarded.  The stage therefore re-raises any capability
exception and converts only parse failures to `None`. -/

/-- `StoryImageGenerator.generate_story_and_characters`: the capability call
is outside the `try`, so its exceptions propagate; the guarded block turns
parse failures into a returned `None`. -/
def generate_story_and_characters (invoke : Except GenError (List Char)) :
    Except GenError (Option Json) :=
  match invoke with
  | .error e => .error e
  | .ok resp => .ok (extract_contract resp)

/-! ## Character image stage -/

/-- The filename `Story-2.generate_character_image` saves under:
`name.replace(' ', '_').lower() + ".png"`. -/
def char2Filename (name : List Char) : List Char :=
  pyLower (pyReplaceSpace name) ++ ['.', 'p', 'n', 'g']

/-- The filename `story_generator.generate_character_image` saves under:
it also embeds the style, `{name_norm}_{style_norm}.png`. -/
def charSgFilename (name style : List Char) : List Char :=
  pyLower (pyReplaceSpace name) ++ '_' :: pyReplaceSpace style ++ ['.', 'p', 'n', 'g']

/-- The filename `Story3.generate_character_image` saves under: it embeds a
wall-clock timestamp, `char_{name_norm}_{timestamp}.png`. -/
def char3Filename (name timestamp : List Char) : List Char :=
  ['c', 'h', 'a', 'r', '_'] ++ pyLower (pyReplaceSpace name)
    ++ '_' :: timestamp ++ ['.', 'p', 'n', 'g']

/-- `Story-2.generate_character_image`: the capability call is inside a
`try/except Exception`; the first inline-data part is saved under
`char2Filename name`; no image data or an exception yields `None`. -/
def generate_character_image_story2 (fs : FileSystem)
    (call : Except GenError (List RespPart)) (name : List Char) :
    FileSystem × Option (List Char) :=
  match call with
  | .error _ => (fs, none)
  | .ok parts =>
    match firstInlineData parts with
    | some data => (fsWrite fs (char2Filename name) data, some (char2Filename name))
    | none => (fs, none)

/-- `story_generator.generate_character_image`: same shape, saving under
`charSgFilename name style`. -/
def generate_character_image_sg (fs : FileSystem)
    (call : Except GenError (List RespPart)) (name style : List Char) :
    FileSystem × Option (List Char) :=
  match call with
  | .error _ => (fs, none)
  | .ok parts =>
    match firstInlineData parts with
    | some data =>
      (fsWrite fs (charSgFilename name style) data, some (charSgFilename name style))
    | none => (fs, none)

/-- `Story3.generate_character_image`: same shape, saving under
`char3Filename name timestamp`. -/
def generate_character_image_story3 (fs : FileSystem)
    (call : Except GenError (List RespPart)) (name timestamp : List Char) :
    FileSystem × Option (List Char) :=
  match call with
  | .error _ => (fs, none)
  | .ok parts =>
    match firstInlineData parts with
    | some data =>
      (fsWrite fs (char3Filename name timestamp) data, some (char3Filename name timestamp))
    | none => (fs, none)

/-! ## Background image batch stage (`Story-2.py` lines 108-131) -/

/-- Did the capability call for one batch item produce an image? -/
def bgItemSucceeds (call : Nat → String → Except GenError (List RespPart))
    (i : Nat) (desc : String) : Bool :=
  match call i desc with
  | .ok parts => (firstInlineData parts).isSome
  | .error _ => false

/-- The filename saved for background item `i` (0-based). -/
def bgFilename (i : Nat) : String := "background_" ++ toString (i + 1) ++ ".png"

/-- The `for i, desc in enumerate(...)` loop of
`generate_background_images`: each item's call is inside its own
`try/except`; a raised error or a response with no inline data contributes
no filename and the loop continues. -/
def generate_background_images_loop
    (call : Nat → String → Except GenError (List RespPart)) :
    Nat → List String → List String
  | _, [] => []
  | i, desc :: rest =>
    match call i desc with
    | .error _ => generate_background_images_loop call (i + 1) rest
    | .ok parts =>
      match firstInlineData parts with
      | some _ => bgFilename i :: generate_background_images_loop call (i + 1) rest
      | none => generate_background_images_loop call (i + 1) rest

/-- `StoryImageGenerator.generate_background_images`: runs the batch loop
and returns the accumulated list (the single `return generated_files`
statement always returns a list value, never `None`). -/
def generate_background_images
    (call : Nat → String → Except GenError (List RespPart))
    (descs : List String) : Option (List String) :=
  some (generate_background_images_loop call 0 descs)

/-! ## Scene composite prompt construction -/

/-- One element of the `contents` list passed to the multi-modal call. -/
inductive PromptPart where
  | text (s : String)
  | image (bytes : List Nat)
deriving DecidableEq

/-- Is a prompt part a text fragment (as opposed to an image)? -/
def isTextPart : PromptPart → Bool
  | .text _ => true
  | .image _ => false

/-- The single quote as a string, for prompt text construction. -/
def sqStr : String := String.mk [cApos]

/-- `Story-2.generate_scene_image_with_references` prompt parts: scene text,
background instruction, background image, character instruction, then the
character images in order. -/
def story2_scene_prompt_parts (scene_description style : String)
    (character_images_bytes : List (List Nat)) (background_image_byte : List Nat) :
    List PromptPart :=
  [ .text ("Create a final, composite illustration in a " ++ style
      ++ " style. Scene Description: " ++ sqStr ++ scene_description ++ sqStr ++ "."),
    .text "Use this image as the definite background:",
    .image background_image_byte,
    .text "Place these characters consistently within the background:" ]
  ++ character_images_bytes.map .image

/-- `Story3.generate_scene_image_with_references` prompt parts: two scene
text fragments, a rules header, eleven composition-rule fragments, the
background instruction, the background image, the character instruction,
then the character images in order. -/
def story3_scene_prompt_parts (scene_description style : String)
    (character_images_bytes : List (List Nat)) (background_image_byte : List Nat) :
    List PromptPart :=
  [ .text ("Create a high-quality composite illustration in **" ++ style ++ "** style."),
    .text ("Scene description: " ++ String.mk [cQ] ++ scene_description ++ String.mk [cQ]),
    .text "\n**Composition & Consistency Rules:**",
    .text "1. **Fixed Background**: Use the provided image as the definitive, unchangeable background. Do not add or remove any background elements.",
    .text "2. **Accurate Character Placement**: Place the characters **exactly as described**, matching their **locations, actions, and spatial relationships** in the scene description.",
    .text "3. **Perspective & Depth**: Match the perspective and scale of the characters to the background. Characters closer to the foreground should appear larger; those farther should appear smaller.",
    .text "4. **Lighting Alignment**: Match character lighting and shadows to the background light source (e.g., sunlight direction, ambient lighting).",
    .text "5. **Surface Interaction**: Characters must interact with the environment realistically - sitting on chairs, leaning against trees, standing on the ground, etc.",
    .text "6. **Shadow Casting**: Add realistic shadows beneath characters to make them feel naturally integrated into the scene.",
    .text "7. **No Floating Figures**: Characters must appear firmly grounded, never hovering or clipping through surfaces.",
    .text "8. **Character Consistency**: Do NOT swap character identities or positions. Maintain accurate facial features, clothing, and posture throughout scenes.",
    .text "9. **No Additional Characters**: Do NOT add any new characters or figures that are not described in the scene.DO NOT Duplicate a character once added into the scene",
    .text "10. Utilize the bakcground efficiently to place the characters in a **LOGICAL** way such that it doesnt look disproportionate or out of place.",
    .text "11. **Character Continuity Across Scenes:** Maintain the same identity, outfit, hairstyle, and visual style for each character throughout all generated scenes. Do not change or swap appearances between frames.",
    .text "\nUse this image as the background:",
    .image background_image_byte,
    .text "Place these characters consistently within the scene:" ]
  ++ character_images_bytes.map .image

/-! ## HTTP layer (`new_server.py`) -/

/-- Python truthiness of a parsed JSON value. -/
def pyTruthy : Json → Bool
  | .null => false
  | .bool b => b
  | .num n => n != 0
  | .str s => !s.isEmpty
  | .arr xs => !xs.isEmpty
  | .obj ms => !ms.isEmpty

/-- Key lookup in a parsed JSON object (Python `dict` access). -/
def jsonGet (j : Json) (key : List Char) : Option Json :=
  match j with
  | .obj ms => (ms.find? (fun p => p.1 = key)).map (·.2)
  | _ => none

/-- An HTTP handler outcome: a JSON success body, an error response with a
status code and message, or an unhandled exception escaping the handler. -/
inductive HttpResult where
  | ok (body : Json)
  | err (code : Nat) (msg : String)
  | crash (e : GenError)

/-- `api_generate_story`: calls the story stage and returns
`jsonify(result) if result else handle_error(...500)` - the decision is
Python truthiness of the parsed contract. -/
def api_generate_story (invoke : Except GenError (List Char)) : HttpResult :=
  match generate_story_and_characters invoke with
  | .error e => .crash e
  | .ok result =>
    match result with
    | some j =>
      if pyTruthy j then .ok j
      else .err 500 "Story generation failed on the server."
    | none => .err 500 "Story generation failed on the server."

/-- `api_generate_background_images`: returns the filename list when the
stage result `is not None`, else a 500 error. -/
def api_generate_background_images
    (call : Nat → String → Except GenError (List RespPart))
    (descs : List String) : HttpResult :=
  match generate_background_images call descs with
  | some fns => .ok (Json.arr (fns.map (fun s => Json.str s.toList)))
  | none => .err 500 "Background image generation failed on the server."

/-! ## Scene loop of `testing.py` `main` (STEP 5) -/

/-- The per-scene loop of `testing.py` STEP 5: for scene `i`, if the
background file list is empty the loop breaks (no further composite calls);
otherwise the background at index `i mod len(background_image_files)` is
read; a failed read, empty background bytes or an empty character list skips
the scene; otherwise a composite call is recorded for scene `i` with that
background file. -/
def step5SceneCalls (read : String → Option (List Nat))
    (charImages : List (List Nat)) (bgFiles : List String) :
    Nat → List String → List (Nat × String)
  | _, [] => []
  | i, _desc :: rest =>
    if bgFiles.isEmpty then []
    else
      let bgFile := bgFiles.getD (i % bgFiles.length) ""
      match read bgFile with
      | none => step5SceneCalls read charImages bgFiles (i + 1) rest
      | some bg =>
        if charImages.isEmpty || bg.isEmpty then
          step5SceneCalls read charImages bgFiles (i + 1) rest
        else (i, bgFile) :: step5SceneCalls read charImages bgFiles (i + 1) rest

/-- A continuation on which a JSON number parse stops: empty, or starting
with a non-digit. -/
def noDigitHead : List Char → Prop
  | [] => True
  | c :: _ => digitVal c = none

/-! ## Helper lemmas: background batch loop -/

/-- Closed form of the background batch loop from any start index: one
filename per succeeded item, in input order. -/
theorem bg_loop_enumFrom (call : Nat → String → Except GenError (List RespPart))
    (i : Nat) (descs : List String) :
    generate_background_images_loop call i descs =
      ((List.enumFrom i descs).filter (fun p => bgItemSucceeds call p.1 p.2)).map
        (fun p => bgFilename p.1) := by
  induction descs generalizing i with
  | nil => simp [generate_background_images_loop]
  | cons d rest ih =>
    simp only [generate_background_images_loop, List.enumFrom_cons, List.filter_cons]
    cases h : call i d with
    | error e => simp [bgItemSucceeds, h, ih]
    | ok parts =>
      cases hf : firstInlineData parts with
      | none => simp [bgItemSucceeds, h, hf, ih]
      | some d2 => simp [bgItemSucceeds, h, hf, ih]

/-! ## Helper lemmas: filesystem -/

/-- Entries surviving the overwrite filter never match the written name. -/
theorem filter_ne_then_eq (n : List Char) (fs : FileSystem) :
    (fs.filter (fun p => p.1 ≠ n)).filter (fun p => p.1 = n) = [] := by
  induction fs with
  | nil => rfl
  | cons h t ih =>
    by_cases hh : h.1 = n <;> simp [List.filter_cons, hh, ih]

/-- After a write there is exactly one entry under the written name. -/
theorem fsCount_fsWrite (fs : FileSystem) (n : List Char) (d : List Nat) :
    fsCount (fsWrite fs n d) n = 1 := by
  simp [fsCount, fsWrite, List.filter_cons, filter_ne_then_eq]

/-- A write is visible to a read of the same name. -/
theorem fsRead_fsWrite (fs : FileSystem) (n : List Char) (d : List Nat) :
    fsRead (fsWrite fs n d) n = some d := by
  simp [fsRead, fsWrite, List.find?]

/-! ## Helper lemmas: testing.py scene loop -/

/-- Any composite call recorded by the STEP 5 loop for scene `i` uses the
background file at index `i mod len(bgFiles)`. -/
theorem step5_mem_bg (read : String → Option (List Nat))
    (charImages : List (List Nat)) (bgFiles : List String) :
    ∀ (scenes : List String) (start i : Nat) (f : String),
      (i, f) ∈ step5SceneCalls read charImages bgFiles start scenes →
      f = bgFiles.getD (i % bgFiles.length) "" := by
  intro scenes
  induction scenes with
  | nil => intro start i f h; simp [step5SceneCalls] at h
  | cons d rest ih =>
    intro start i f h
    rw [step5SceneCalls] at h
    cases hbg : bgFiles.isEmpty with
    | true => simp [hbg] at h
    | false =>
      simp only [hbg, Bool.false_eq_true, if_false] at h
      split at h
      · exact ih (start + 1) i f h
      · split at h
        · exact ih (start + 1) i f h
        · rcases List.mem_cons.mp h with hpair | hmem
          · simp only [Prod.mk.injEq] at hpair
            obtain ⟨hi, hf⟩ := hpair
            subst hi; exact hf
          · exact ih (start + 1) i f hmem

/-! ## Claim C8 -/

/-- Claim C8 (confirmed): for every batch of background descriptions, the
returned filename sequence of `generate_background_images` is exactly the
input order restricted to the succeeded items - one filename per item whose
capability call neither raised nor returned a response without image data -
so failed items contribute no entry and never abort the remaining items. -/
theorem c8_background_batch_isolation
    (call : Nat → String → Except GenError (List RespPart)) (descs : List String) :
    generate_background_images call descs =
      some (((descs.enum).filter (fun p => bgItemSucceeds call p.1 p.2)).map
        (fun p => bgFilename p.1)) := by
  rw [generate_background_images, bg_loop_enumFrom]; rfl

/-! ## Claim C9 -/

/-- Claim C9 (confirmed): `generate_background_images` always returns a
list value (never `None`, never an escaped exception), so the 500 branch of
`api_generate_background_images` is unreachable and an all-failing batch is
reported as a 200 success carrying an empty filename list. -/
theorem c9_background_api_never_500
    (call : Nat → String → Except GenError (List RespPart)) (descs : List String) :
    api_generate_background_images call descs =
      .ok (Json.arr ((generate_background_images_loop call 0 descs).map
        (fun s => Json.str s.toList))) ∧
    ((∀ i d, bgItemSucceeds call i d = false) →
      api_generate_background_images call descs = .ok (Json.arr [])) := by
  constructor
  · rfl
  · intro hall
    have hempty : generate_background_images_loop call 0 descs = [] := by
      rw [bg_loop_enumFrom]
      simp [hall]
    simp [api_generate_background_images, generate_background_images, hempty]

/-- Witness for C9: a three-item batch whose every call raises is reported
as success with an empty list. -/
theorem c9_background_api_never_500_witness :
    api_generate_background_images (fun _ _ => .error ⟨"quota"⟩) ["a", "b", "c"] =
      .ok (Json.arr []) :=
  (c9_background_api_never_500 (fun _ _ => .error ⟨"quota"⟩) ["a", "b", "c"]).2
    (fun _ _ => rfl)

/-! ## Claim C7 -/

/-- Claim C7 (confirmed): in the scene loop of `testing.py`, with a
nonempty background list every composite call for scene `i` uses the
background at index `i mod k`; with an empty background list no composite
call is made at all (the loop breaks, skipping every scene). -/
theorem c7_background_mod_selection (read : String → Option (List Nat))
    (charImages : List (List Nat)) (bgFiles : List String) (scenes : List String) :
    (bgFiles = [] → step5SceneCalls read charImages bgFiles 0 scenes = []) ∧
    (∀ i f, (i, f) ∈ step5SceneCalls read charImages bgFiles 0 scenes →
      f = bgFiles.getD (i % bgFiles.length) "") := by
  constructor
  · intro hnil
    subst hnil
    cases scenes with
    | nil => rfl
    | cons d rest => simp [step5SceneCalls]
  · intro i f h
    exact step5_mem_bg read charImages bgFiles scenes 0 i f h

/-- Witness for C7, matching the spec example: 9 scenes over 5 backgrounds,
scene 6 uses background index `6 mod 5 = 1`, and an empty background list
yields no calls. -/
theorem c7_background_mod_selection_witness :
    step5SceneCalls (fun _ => some [7]) [[1]] [] 0 ["s"] = [] ∧
    ("b2" : String) = ["b1", "b2", "b3", "b4", "b5"].getD (6 % 5) "" :=
  ⟨(c7_background_mod_selection (fun _ => some [7]) [[1]] [] ["s"]).1 rfl,
   (c7_background_mod_selection (fun _ => some [7]) [[1]]
      ["b1", "b2", "b3", "b4", "b5"]
      ["s", "s", "s", "s", "s", "s", "s", "s", "s"]).2 6 "b2" (by decide)⟩

/-! ## Claim C6 -/

/-- Counterexample for C6: in `Story3.generate_character_image` the saved
filename embeds a timestamp, so two invocations for the same character name
at distinct timestamps derive distinct ids and leave two stored entries,
not one. -/
theorem c6_counterexample :
    char3Filename ['V', 'o', 'l', 't'] ['1'] ≠ char3Filename ['V', 'o', 'l', 't'] ['2'] ∧
    ((generate_character_image_story3
        (generate_character_image_story3 [] (.ok [.inlineData [1]])
          ['V', 'o', 'l', 't'] ['1']).1
        (.ok [.inlineData [2]]) ['V', 'o', 'l', 't'] ['2']).1).length = 2 := by
  constructor
  · decide
  · rfl

/-- Claim C6 amended: in `Story-2.generate_character_image` the logical id
is the name lower-cased with spaces replaced (plus `.png`), so a second
invocation with the same name overwrites the first, leaving exactly one
entry holding the second call's bytes; in `story_generator.py` the id also
embeds the style, so the overwrite happens for equal name and style; in
`Story3.py` the id embeds a timestamp, so invocations at distinct
timestamps create distinct entries and no overwrite occurs. -/
theorem c6_amended_idempotent_overwrite :
    (∀ (fs : FileSystem) (name : List Char) (d1 d2 : List Nat),
      fsCount (generate_character_image_story2
        (generate_character_image_story2 fs (.ok [.inlineData d1]) name).1
        (.ok [.inlineData d2]) name).1 (char2Filename name) = 1 ∧
      fsRead (generate_character_image_story2
        (generate_character_image_story2 fs (.ok [.inlineData d1]) name).1
        (.ok [.inlineData d2]) name).1 (char2Filename name) = some d2) ∧
    (∀ (fs : FileSystem) (name style : List Char) (d1 d2 : List Nat),
      fsCount (generate_character_image_sg
        (generate_character_image_sg fs (.ok [.inlineData d1]) name style).1
        (.ok [.inlineData d2]) name style).1 (charSgFilename name style) = 1 ∧
      fsRead (generate_character_image_sg
        (generate_character_image_sg fs (.ok [.inlineData d1]) name style).1
        (.ok [.inlineData d2]) name style).1 (charSgFilename name style) = some d2) ∧
    (∀ (name t1 t2 : List Char), t1 ≠ t2 →
      char3Filename name t1 ≠ char3Filename name t2) := by
  refine ⟨?_, ?_, ?_⟩
  · intro fs name d1 d2
    exact ⟨fsCount_fsWrite _ _ _, fsRead_fsWrite _ _ _⟩
  · intro fs name style d1 d2
    exact ⟨fsCount_fsWrite _ _ _, fsRead_fsWrite _ _ _⟩
  · intro name t1 t2 hne heq
    apply hne
    rw [char3Filename, char3Filename] at heq
    simp only [List.append_assoc] at heq
    rw [List.append_right_inj, List.append_right_inj] at heq
    injection heq with h1 h2
    exact (List.append_left_inj _).mp h2

/-- Witness for C6 amended: a concrete double invocation for name `Bob`
leaves one entry in `Story-2`, and distinct timestamps give distinct
`Story3` ids. -/
theorem c6_amended_idempotent_overwrite_witness :
    fsCount (generate_character_image_story2
      (generate_character_image_story2 [] (.ok [.inlineData [1]]) ['B', 'o', 'b']).1
      (.ok [.inlineData [2]]) ['B', 'o', 'b']).1 (char2Filename ['B', 'o', 'b']) = 1 ∧
    char3Filename ['B', 'o', 'b'] ['1'] ≠ char3Filename ['B', 'o', 'b'] ['2'] :=
  ⟨(c6_amended_idempotent_overwrite.1 [] ['B', 'o', 'b'] [1] [2]).1,
   c6_amended_idempotent_overwrite.2.2 ['B', 'o', 'b'] ['1'] ['2'] (by decide)⟩

/-! ## Claim C4 -/

/-- Counterexample for C4: the `Story3` version of
`generate_scene_image_with_references` builds 17 fixed parts before the
character images, so with zero character images the prompt-parts list has
17 elements, not `4 + 0`. -/
theorem c4_counterexample :
    (story3_scene_prompt_parts "d" "s" [] [0]).length = 17 ∧
    (story3_scene_prompt_parts "d" "s" [] [0]).length ≠ 4 + ([] : List (List Nat)).length := by
  constructor
  · rfl
  · intro h
    rw [show (story3_scene_prompt_parts "d" "s" [] [0]).length = 17 from rfl] at h
    simp at h

/-- Claim C4 amended: in `Story-2` the prompt-parts list has exactly
`4 + N` elements - scene text, background instruction text, the background
image, character instruction text, then the `N` character images in order;
in `Story3` it has `17 + N` elements - fifteen text fragments, the
background image at index 15, one more text fragment, then the `N`
character images in order.  In both versions the single background image
precedes all character images. -/
theorem c4_amended_prompt_ordering (sd st : String)
    (chars : List (List Nat)) (bg : List Nat) :
    (story2_scene_prompt_parts sd st chars bg).length = 4 + chars.length ∧
    ((story2_scene_prompt_parts sd st chars bg).take 4).map isTextPart
      = [true, true, false, true] ∧
    (story2_scene_prompt_parts sd st chars bg)[2]? = some (.image bg) ∧
    (story2_scene_prompt_parts sd st chars bg).drop 4 = chars.map .image ∧
    (story3_scene_prompt_parts sd st chars bg).length = 17 + chars.length ∧
    ((story3_scene_prompt_parts sd st chars bg).take 17).map isTextPart
      = [true, true, true, true, true, true, true, true, true, true, true,
         true, true, true, true, false, true] ∧
    (story3_scene_prompt_parts sd st chars bg)[15]? = some (.image bg) ∧
    (story3_scene_prompt_parts sd st chars bg).drop 17 = chars.map .image := by
  refine ⟨?_, rfl, rfl, rfl, ?_, rfl, rfl, rfl⟩
  · simp [story2_scene_prompt_parts]
    omega
  · simp [story3_scene_prompt_parts]
    omega

/-! ## Claim C1 -/

/-- Counterexample for C1: in `generate_story_and_characters` the
capability call sits outside the `try`, so a raised capability exception
propagates out of the stage instead of being converted to a returned
failure value. -/
theorem c1_counterexample :
    generate_story_and_characters (Except.error ⟨"timeout"⟩) =
      Except.error ⟨"timeout"⟩ ∧
    generate_story_and_characters (Except.error ⟨"timeout"⟩) ≠ Except.ok none := by
  exact ⟨rfl, by simp [generate_story_and_characters]⟩

/-- Claim C1 amended: in the image stages (character image in all three
generator files, and the background batch loop) any capability exception is
caught inside the operation and converted to a returned failure value
(`None`, or a skipped batch item); but in `generate_story_and_characters`
the capability call is outside the `try`, so a capability exception
propagates out of the stage - only JSON parse failures are converted to a
returned `None` there. -/
theorem c1_amended_exception_policy :
    (∀ (fs : FileSystem) (e : GenError) (name : List Char),
      generate_character_image_story2 fs (.error e) name = (fs, none)) ∧
    (∀ (fs : FileSystem) (e : GenError) (name style : List Char),
      generate_character_image_sg fs (.error e) name style = (fs, none)) ∧
    (∀ (fs : FileSystem) (e : GenError) (name ts : List Char),
      generate_character_image_story3 fs (.error e) name ts = (fs, none)) ∧
    (∀ (e : GenError) (descs : List String),
      generate_background_images (fun _ _ => .error e) descs = some []) ∧
    (∀ e : GenError, generate_story_and_characters (.error e) = .error e) ∧
    (∀ resp : List Char,
      generate_story_and_characters (.ok resp) = .ok (extract_contract resp)) := by
  refine ⟨fun _ _ _ => rfl, fun _ _ _ _ => rfl, fun _ _ _ _ => rfl, ?_,
    fun _ => rfl, fun _ => rfl⟩
  intro e descs
  rw [generate_background_images, bg_loop_enumFrom]
  simp [bgItemSucceeds]

/-! ## Helper lemmas: characters, digits and sizes -/

/-- `digitChar` of a digit value has the expected code point. -/
theorem digitChar_toNat (d : Nat) (hd : d < 10) : (digitChar d).toNat = 48 + d := by
  interval_cases d <;> rfl

/-- `digitVal` inverts `digitChar` on digit values. -/
theorem digitVal_digitChar (d : Nat) (hd : d < 10) : digitVal (digitChar d) = some d := by
  interval_cases d <;> rfl

/-- `hexVal` inverts `hexChar` on hex digit values. -/
theorem hexVal_hexChar (d : Nat) (hd : d < 16) : hexVal (hexChar d) = some d := by
  interval_cases d <;> rfl

/-- Digit characters are not whitespace. -/
theorem isWs_digitChar (d : Nat) (hd : d < 10) : isWs (digitChar d) = false := by
  interval_cases d <;> rfl

/-- `skipWs` is the identity on inputs starting with a non-whitespace
character. -/
theorem skipWs_cons (c : Char) (l : List Char) (h : isWs c = false) :
    skipWs (c :: l) = c :: l := by
  simp [skipWs, h]

/-- Every JSON value has at least one node. -/
theorem jsize_pos (J : Json) : 1 ≤ jsize J := by
  cases J <;> simp only [jsize] <;> omega

/-- Element-list sizes are positive. -/
theorem jsizeL_pos (xs : List Json) : 1 ≤ jsizeL xs := by
  cases xs with
  | nil => simp [jsizeL]
  | cons x t => have := jsize_pos x; simp only [jsizeL]; omega

/-- Member-list sizes are positive. -/
theorem jsizeM_pos (ms : List (List Char × Json)) : 1 ≤ jsizeM ms := by
  cases ms with
  | nil => simp [jsizeM]
  | cons m t => obtain ⟨k, v⟩ := m; have := jsize_pos v; simp only [jsizeM]; omega

/-- The length of an element list is below its size. -/
theorem length_lt_jsizeL (xs : List Json) : xs.length < jsizeL xs := by
  induction xs with
  | nil => simp [jsizeL]
  | cons x t ih => have := jsize_pos x; simp only [jsizeL, List.length_cons]; omega

/-- The length of a member list is below its size. -/
theorem length_lt_jsizeM (ms : List (List Char × Json)) : ms.length < jsizeM ms := by
  induction ms with
  | nil => simp [jsizeM]
  | cons m t ih =>
    obtain ⟨k, v⟩ := m; have := jsize_pos v
    simp only [jsizeM, List.length_cons]; omega

/-- An element is no larger than its list. -/
theorem jsize_le_jsizeL (x : Json) (xs : List Json) (hx : x ∈ xs) :
    jsize x ≤ jsizeL xs := by
  induction xs with
  | nil => cases hx
  | cons y t ih =>
    rcases List.mem_cons.mp hx with h | h
    · subst h; have := jsizeL_pos t; simp only [jsizeL]; omega
    · have := ih h; have := jsize_pos y; simp only [jsizeL]; omega

/-- A member value is no larger than its list. -/
theorem jsize_le_jsizeM (k : List Char) (v : Json) (ms : List (List Char × Json))
    (hv : (k, v) ∈ ms) : jsize v ≤ jsizeM ms := by
  induction ms with
  | nil => cases hv
  | cons m t ih =>
    obtain ⟨k2, v2⟩ := m
    rcases List.mem_cons.mp hv with h | h
    · have := jsizeM_pos t
      simp only [Prod.mk.injEq] at h
      obtain ⟨h1, h2⟩ := h
      subst h2
      simp only [jsizeM]; omega
    · have := ih h; have := jsize_pos v2
      simp only [jsizeM]; omega

/-! ## Helper lemmas: number literal round trip -/

/-- `takeDigits` consumes exactly a digit-character run when the
continuation starts with a non-digit. -/
theorem takeDigits_append (ds : List Nat) (rest : List Char)
    (h10 : ∀ d ∈ ds, d < 10) (hrest : noDigitHead rest) :
    takeDigits (ds.map digitChar ++ rest) = (ds, rest) := by
  induction ds with
  | nil =>
    cases rest with
    | nil => rfl
    | cons c t =>
      simp only [noDigitHead] at hrest
      simp [takeDigits, hrest]
  | cons d t ih =>
    have hd : d < 10 := h10 d (List.mem_cons_self d t)
    simp only [List.map_cons, List.cons_append, takeDigits,
      digitVal_digitChar d hd, List.append_eq]
    rw [ih (fun x hx => h10 x (List.mem_cons_of_mem d hx))]

/-- `parseNat` inverts `natChars` when the continuation starts with a
non-digit. -/
theorem parseNat_natChars (n : Nat) (rest : List Char) (hrest : noDigitHead rest) :
    parseNat (natChars n ++ rest) = some (n, rest) := by
  by_cases h0 : n = 0
  · subst h0
    rw [show natChars 0 = [digitChar 0] by rfl]
    rw [show ([digitChar 0] : List Char) = [0].map digitChar by rfl]
    rw [parseNat, takeDigits_append [0] rest (by intro d hd; simp at hd; omega) hrest]
    simp [Nat.ofDigits]
  · rw [natChars, if_neg h0, parseNat,
      takeDigits_append ((Nat.digits 10 n).reverse) rest
        (fun d hd => Nat.digits_lt_base (by norm_num) (List.mem_reverse.mp hd)) hrest]
    have hne : Nat.digits 10 n ≠ [] := Nat.digits_ne_nil_iff_ne_zero.mpr h0
    have hlast : (Nat.digits 10 n).getLast hne ≠ 0 :=
      Nat.getLast_digit_ne_zero 10 h0
    have hrne : (Nat.digits 10 n).reverse ≠ [] := by simp [hne]
    obtain ⟨d0, ds', hds⟩ := List.exists_cons_of_ne_nil hrne
    have hd0 : d0 ≠ 0 := by
      have hh := List.head?_reverse (Nat.digits 10 n)
      rw [hds, List.getLast?_eq_getLast _ hne, List.head?_cons] at hh
      have hh2 : d0 = (Nat.digits 10 n).getLast hne := Option.some.inj hh
      rw [hh2]
      exact hlast
    rw [hds]
    simp only [List.head?_cons, List.length_cons]
    rw [if_neg]
    · rw [← hds, List.reverse_reverse, Nat.ofDigits_digits]
    · intro hcon
      exact hd0 (Option.some.injEq .. ▸ hcon.2)

/-! ## Helper lemmas: string literal round trip -/

/-- Code point of the quote constant. -/
theorem cQ_toNat : cQ.toNat = 34 := rfl

/-- Code point of the backslash constant. -/
theorem cBS_toNat : cBS.toNat = 92 := rfl

/-- Code point of the left-brace constant. -/
theorem cLB_toNat : cLB.toNat = 123 := rfl

/-- Code point of the right-brace constant. -/
theorem cRB_toNat : cRB.toNat = 125 := rfl

/-- Distinct characters have distinct code points. -/
theorem toNat_ne_of_ne {c d : Char} (h : c ≠ d) : c.toNat ≠ d.toNat := by
  intro hc
  exact h (by rw [← Char.ofNat_toNat c, hc, Char.ofNat_toNat])

/-- `parseStrBody` inverts the JSON string escape. -/
theorem parseStrBody_escStr (s : List Char) : ∀ rest : List Char,
    parseStrBody (escStr s ++ cQ :: rest) = some (s, rest) := by
  induction s with
  | nil =>
    intro rest
    rw [show escStr [] ++ cQ :: rest = cQ :: rest from rfl, parseStrBody.eq_def]
    simp [cQ_toNat]
  | cons c t ih =>
    intro rest
    rw [escStr, List.append_assoc]
    by_cases hq : c = cQ
    · subst hq
      rw [show escChar cQ = [cBS, cQ] from rfl]
      simp only [List.cons_append, List.nil_append]
      rw [parseStrBody.eq_def]
      simp [cBS_toNat, cQ_toNat, unescChar, ih rest]
    · by_cases hbs : c = cBS
      · subst hbs
        rw [show escChar cBS = [cBS, cBS] from rfl]
        simp only [List.cons_append, List.nil_append]
        rw [parseStrBody.eq_def]
        simp [cBS_toNat, unescChar, ih rest]
      · by_cases hlt : c.toNat < 32
        · rw [escChar, if_neg hq, if_neg hbs, if_pos hlt]
          simp only [List.cons_append, List.nil_append]
          have h1 : hexVal (hexChar (c.toNat / 16)) = some (c.toNat / 16) :=
            hexVal_hexChar _ (by omega)
          have h2 : hexVal (hexChar (c.toNat % 16)) = some (c.toNat % 16) :=
            hexVal_hexChar _ (Nat.mod_lt _ (by norm_num))
          have h3 : ((0 * 16 + 0) * 16 + c.toNat / 16) * 16 + c.toNat % 16 = c.toNat := by
            omega
          rw [parseStrBody.eq_def]
          simp [cBS_toNat, h1, h2, h3, ih rest,
            show hexVal '0' = some 0 from rfl]
          rw [show c.toNat / 16 * 16 + c.toNat % 16 = c.toNat from by omega,
            Char.ofNat_toNat]
        · rw [escChar, if_neg hq, if_neg hbs, if_neg hlt]
          have hq' : ¬c.toNat = 34 := cQ_toNat ▸ toNat_ne_of_ne hq
          have hbs' : ¬c.toNat = 92 := cBS_toNat ▸ toNat_ne_of_ne hbs
          simp only [List.cons_append, List.nil_append]
          rw [parseStrBody.eq_def]
          simp [hq', hbs', hlt, ih rest]

/-! ## Helper lemmas: serializer head shapes -/

/-- `natChars` always starts with a digit character. -/
theorem natChars_head (m : Nat) : ∃ d t, natChars m = digitChar d :: t ∧ d < 10 := by
  rw [natChars]
  by_cases h0 : m = 0
  · rw [if_pos h0]; exact ⟨0, [], rfl, by norm_num⟩
  · rw [if_neg h0]
    have hne : Nat.digits 10 m ≠ [] := Nat.digits_ne_nil_iff_ne_zero.mpr h0
    have hrne : (Nat.digits 10 m).reverse ≠ [] := by simp [hne]
    obtain ⟨d0, ds', hds⟩ := List.exists_cons_of_ne_nil hrne
    refine ⟨d0, ds'.map digitChar, ?_, ?_⟩
    · rw [hds, List.map_cons]
    · exact Nat.digits_lt_base (by norm_num)
        (List.mem_reverse.mp (hds ▸ List.mem_cons_self d0 ds'))

/-- Every serialized value starts with a non-whitespace character that is
not a closing bracket. -/
theorem serV_head (J : Json) :
    ∃ c t, serV J = c :: t ∧ isWs c = false ∧ c.toNat ≠ 93 := by
  cases J with
  | null => exact ⟨'n', ['u', 'l', 'l'], by simp [serV], by decide, by decide⟩
  | bool b =>
    cases b with
    | true => exact ⟨'t', ['r', 'u', 'e'], by simp [serV], by decide, by decide⟩
    | false => exact ⟨'f', ['a', 'l', 's', 'e'], by simp [serV], by decide, by decide⟩
  | num n =>
    by_cases hneg : n < 0
    · refine ⟨Char.ofNat 45, natChars n.natAbs, ?_, by decide, by decide⟩
      simp [serV, serInt, hneg]
    · obtain ⟨d, t, hc, hd⟩ := natChars_head n.toNat
      refine ⟨digitChar d, t, ?_, isWs_digitChar d hd, ?_⟩
      · simp [serV, serInt, hneg, hc]
      · have := digitChar_toNat d hd; omega
  | str s => exact ⟨cQ, escStr s ++ [cQ], by simp [serV, serStr], by decide, by decide⟩
  | arr xs => exact ⟨'[', serElems xs ++ [']'], by simp [serV], by decide, by decide⟩
  | obj ms => exact ⟨cLB, serMembers ms ++ [cRB], by simp [serV], by decide, by decide⟩

/-- `skipWs` fixes any serialized value followed by anything. -/
theorem skipWs_serV_append (J : Json) (rest : List Char) :
    skipWs (serV J ++ rest) = serV J ++ rest := by
  obtain ⟨c, t, hc, hws, _⟩ := serV_head J
  rw [hc, List.cons_append, skipWs_cons _ _ hws]

/-- A nonempty serialized element list starts like its first value. -/
theorem serElems_cons_head (x : Json) (t : List Json) :
    ∃ c u, serElems (x :: t) = c :: u ∧ isWs c = false ∧ c.toNat ≠ 93 := by
  obtain ⟨c, u, hc, hws, hne⟩ := serV_head x
  cases t with
  | nil => exact ⟨c, u, by simp [serElems, hc], hws, hne⟩
  | cons y v =>
    exact ⟨c, u ++ ',' :: serElems (y :: v), by simp [serElems, hc], hws, hne⟩

/-- A nonempty serialized member list starts with a quote. -/
theorem serMembers_cons_head (m : List Char × Json) (ms : List (List Char × Json)) :
    ∃ t, serMembers (m :: ms) = cQ :: t := by
  obtain ⟨k, v⟩ := m
  cases ms with
  | nil => exact ⟨escStr k ++ cQ :: ':' :: serV v, by simp [serMembers, serStr]⟩
  | cons m2 ms2 =>
    exact ⟨escStr k ++ cQ :: ':' :: serV v ++ ',' :: serMembers (m2 :: ms2),
      by simp [serMembers, serStr]⟩

/-- `parseVal` on a digit-initial input parses a number literal. -/
theorem parseVal_digit (f : Nat) (c : Char) (l : List Char) (d : Nat)
    (hd : digitVal c = some d) :
    parseVal (f + 1) (c :: l) =
      match parseNat (c :: l) with
      | some (n, r) => some (.num (n : Int), r)
      | none => none := by
  have hb : 48 ≤ c.toNat ∧ c.toNat ≤ 57 := by
    by_contra h
    rw [digitVal, if_neg h] at hd
    exact Option.noConfusion hd
  have hsk : skipWs (c :: l) = c :: l := by
    refine skipWs_cons _ _ ?_
    simp only [isWs, Bool.or_eq_false_iff, decide_eq_false_iff_not]
    omega
  simp only [parseVal, hsk]
  rw [if_neg (show ¬c.toNat = 123 by omega)]
  rw [if_neg (show ¬c.toNat = 91 by omega)]
  rw [if_neg (show ¬c.toNat = 34 by omega)]
  rw [if_neg (show ¬c.toNat = 116 by omega)]
  rw [if_neg (show ¬c.toNat = 102 by omega)]
  rw [if_neg (show ¬c.toNat = 110 by omega)]
  rw [if_neg (show ¬c.toNat = 45 by omega)]
  rw [hd]

/-! ## Helper lemmas: array and object round trip -/

/-- `parseElemsWith` inverts `serElems` on nonempty element lists, given a
value parser that inverts `serV` on the elements. -/
theorem parseElemsWith_ser (pv : List Char → Option (Json × List Char)) :
    ∀ (xs : List Json) (g : Nat) (rest : List Char), xs ≠ [] → xs.length ≤ g →
      (∀ x ∈ xs, ∀ r : List Char, noDigitHead r → pv (serV x ++ r) = some (x, r)) →
      parseElemsWith pv g (serElems xs ++ ']' :: rest) = some (xs, rest) := by
  intro xs
  induction xs with
  | nil => intro g rest hne; exact absurd rfl hne
  | cons x t ih =>
    intro g rest hne hlen hpv
    cases g with
    | zero => simp at hlen
    | succ g =>
      cases t with
      | nil =>
        have hx := hpv x (List.mem_cons_self x []) (']' :: rest)
          (by simp [noDigitHead, digitVal])
        have hsk : skipWs (']' :: rest) = ']' :: rest :=
          skipWs_cons _ _ (by decide)
        simp only [serElems]
        simp only [parseElemsWith, hx, hsk]
        simp
      | cons y u =>
        have hx := hpv x (List.mem_cons_self x (y :: u))
          (',' :: (serElems (y :: u) ++ ']' :: rest))
          (by simp [noDigitHead, digitVal])
        have hsk : skipWs (',' :: (serElems (y :: u) ++ ']' :: rest))
            = ',' :: (serElems (y :: u) ++ ']' :: rest) :=
          skipWs_cons _ _ (by decide)
        have hrec := ih g rest (List.cons_ne_nil y u)
          (by simp at hlen ⊢; omega)
          (fun z hz r hr => hpv z (List.mem_cons_of_mem x hz) r hr)
        simp only [serElems, List.cons_append, List.append_assoc]
        simp only [parseElemsWith]
        rw [show serV x ++ ',' :: (serElems (y :: u) ++ ']' :: rest)
            = serV x ++ ',' :: serElems (y :: u) ++ ']' :: rest by simp]
        rw [show serV x ++ ',' :: serElems (y :: u) ++ ']' :: rest
            = serV x ++ (',' :: (serElems (y :: u) ++ ']' :: rest)) by simp]
        rw [hx]
        simp only [hsk]
        simp [hrec]

/-- `parseMembersWith` inverts `serMembers` on nonempty member lists, given
a value parser that inverts `serV` on the member values. -/
theorem parseMembersWith_ser (pv : List Char → Option (Json × List Char)) :
    ∀ (ms : List (List Char × Json)) (g : Nat) (rest : List Char),
      ms ≠ [] → ms.length ≤ g →
      (∀ k v, (k, v) ∈ ms → ∀ r : List Char, noDigitHead r →
        pv (serV v ++ r) = some (v, r)) →
      parseMembersWith pv g (serMembers ms ++ cRB :: rest) = some (ms, rest) := by
  intro ms
  induction ms with
  | nil => intro g rest hne; exact absurd rfl hne
  | cons m t ih =>
    obtain ⟨k, v⟩ := m
    intro g rest hne hlen hpv
    cases g with
    | zero => simp at hlen
    | succ g =>
      cases t with
      | nil =>
        have hv := hpv k v (List.mem_cons_self (k, v) []) (cRB :: rest)
          (by simp [noDigitHead, digitVal, cRB_toNat])
        have hsk1 : skipWs (':' :: (serV v ++ cRB :: rest))
            = ':' :: (serV v ++ cRB :: rest) := skipWs_cons _ _ (by decide)
        have hsk2 : skipWs (cRB :: rest) = cRB :: rest :=
          skipWs_cons _ _ (by decide)
        have hinput : serMembers [(k, v)] ++ cRB :: rest
            = cQ :: (escStr k ++ cQ :: (':' :: (serV v ++ cRB :: rest))) := by
          simp [serMembers, serStr]
        rw [hinput]
        simp only [parseMembersWith, cQ_toNat, if_true]
        rw [parseStrBody_escStr k (':' :: (serV v ++ cRB :: rest))]
        simp only [hsk1]
        rw [if_pos (by decide), hv]
        simp only [hsk2]
        rw [if_neg (by rw [cRB_toNat]; omega), if_pos (by rw [cRB_toNat])]
      | cons m2 t2 =>
        have hv := hpv k v (List.mem_cons_self (k, v) (m2 :: t2))
          (',' :: (serMembers (m2 :: t2) ++ cRB :: rest))
          (by simp [noDigitHead, digitVal])
        have hsk1 : skipWs (':' :: (serV v ++ ',' :: (serMembers (m2 :: t2) ++ cRB :: rest)))
            = ':' :: (serV v ++ ',' :: (serMembers (m2 :: t2) ++ cRB :: rest)) :=
          skipWs_cons _ _ (by decide)
        have hsk2 : skipWs (',' :: (serMembers (m2 :: t2) ++ cRB :: rest))
            = ',' :: (serMembers (m2 :: t2) ++ cRB :: rest) :=
          skipWs_cons _ _ (by decide)
        obtain ⟨mt, hmt⟩ := serMembers_cons_head m2 t2
        have hsk3 : skipWs (serMembers (m2 :: t2) ++ cRB :: rest)
            = serMembers (m2 :: t2) ++ cRB :: rest := by
          rw [hmt, List.cons_append]
          exact skipWs_cons _ _ (by decide)
        have hrec := ih g rest (List.cons_ne_nil m2 t2)
          (by simp at hlen ⊢; omega)
          (fun k2 v2 h2 r hr => hpv k2 v2 (List.mem_cons_of_mem (k, v) h2) r hr)
        have hinput : serMembers ((k, v) :: m2 :: t2) ++ cRB :: rest
            = cQ :: (escStr k ++ cQ :: (':' :: (serV v
                ++ ',' :: (serMembers (m2 :: t2) ++ cRB :: rest)))) := by
          simp [serMembers, serStr]
        rw [hinput]
        simp only [parseMembersWith, cQ_toNat, if_true]
        rw [parseStrBody_escStr k
          (':' :: (serV v ++ ',' :: (serMembers (m2 :: t2) ++ cRB :: rest)))]
        simp only [hsk1]
        rw [if_pos (by decide), hv]
        simp only [hsk2]
        rw [if_pos (by decide)]
        simp only [hsk3]
        rw [hrec]
        rfl

/-- The strict parser inverts the serializer: any fuel at least the node
count works, for any continuation on which a number parse stops. -/
theorem parseVal_serV : ∀ (f : Nat) (J : Json) (rest : List Char),
    jsize J ≤ f → noDigitHead rest →
    parseVal f (serV J ++ rest) = some (J, rest) := by
  intro f
  induction f with
  | zero =>
    intro J rest hj _
    have := jsize_pos J
    omega
  | succ f ih =>
    intro J rest hj hr
    cases J with
    | null =>
      rw [show serV .null ++ rest = 'n' :: 'u' :: 'l' :: 'l' :: rest by simp [serV]]
      simp only [parseVal]
      rw [skipWs_cons _ _ (by decide)]
      simp
    | bool b =>
      cases b with
      | true =>
        rw [show serV (.bool true) ++ rest = 't' :: 'r' :: 'u' :: 'e' :: rest by
          simp [serV]]
        simp only [parseVal]
        rw [skipWs_cons _ _ (by decide)]
        simp
      | false =>
        rw [show serV (.bool false) ++ rest = 'f' :: 'a' :: 'l' :: 's' :: 'e' :: rest by
          simp [serV]]
        simp only [parseVal]
        rw [skipWs_cons _ _ (by decide)]
        simp
    | num n =>
      by_cases hneg : n < 0
      · rw [show serV (.num n) ++ rest = Char.ofNat 45 :: (natChars n.natAbs ++ rest) by
          simp [serV, serInt, hneg]]
        simp only [parseVal]
        rw [skipWs_cons _ _ (by decide)]
        simp only []
        rw [if_neg (show ¬(Char.ofNat 45).toNat = 123 by decide)]
        rw [if_neg (show ¬(Char.ofNat 45).toNat = 91 by decide)]
        rw [if_neg (show ¬(Char.ofNat 45).toNat = 34 by decide)]
        rw [if_neg (show ¬(Char.ofNat 45).toNat = 116 by decide)]
        rw [if_neg (show ¬(Char.ofNat 45).toNat = 102 by decide)]
        rw [if_neg (show ¬(Char.ofNat 45).toNat = 110 by decide)]
        rw [if_pos (show (Char.ofNat 45).toNat = 45 by decide)]
        rw [parseNat_natChars n.natAbs rest hr]
        simp only []
        rw [show -((n.natAbs : Int)) = n by omega]
      · obtain ⟨d, t, hc, hd⟩ := natChars_head n.toNat
        rw [show serV (.num n) ++ rest = digitChar d :: (t ++ rest) by
          simp [serV, serInt, hneg, hc]]
        rw [parseVal_digit f (digitChar d) (t ++ rest) d (digitVal_digitChar d hd)]
        rw [show digitChar d :: (t ++ rest) = natChars n.toNat ++ rest by simp [hc]]
        rw [parseNat_natChars n.toNat rest hr]
        simp only []
        rw [show ((n.toNat : Nat) : Int) = n by omega]
    | str s =>
      rw [show serV (.str s) ++ rest = cQ :: (escStr s ++ cQ :: rest) by
        simp [serV, serStr]]
      simp only [parseVal]
      rw [skipWs_cons _ _ (by decide)]
      simp only []
      rw [if_neg (by decide), if_neg (by decide), if_pos (by decide)]
      rw [parseStrBody_escStr s rest]
    | arr xs =>
      cases xs with
      | nil =>
        rw [show serV (.arr []) ++ rest = '[' :: ']' :: rest by simp [serV, serElems]]
        simp only [parseVal]
        rw [skipWs_cons _ _ (by decide)]
        simp only []
        rw [if_neg (by decide), if_pos (by decide)]
        rw [skipWs_cons _ _ (by decide)]
        simp only []
        rw [if_pos (by decide)]
      | cons x t =>
        obtain ⟨ch, cu, hch, hws, h93⟩ := serElems_cons_head x t
        have hjl : jsizeL (x :: t) ≤ f := by
          simp only [jsize] at hj; omega
        have hlen : (x :: t).length ≤ f := by
          have := length_lt_jsizeL (x :: t); omega
        have hel := parseElemsWith_ser (parseVal f) (x :: t) f rest
          (List.cons_ne_nil x t) hlen
          (fun z hz r hrr => ih z r (le_trans (jsize_le_jsizeL z _ hz) hjl) hrr)
        have hsk2 : skipWs (serElems (x :: t) ++ ']' :: rest)
            = serElems (x :: t) ++ ']' :: rest := by
          rw [hch, List.cons_append]
          exact skipWs_cons _ _ hws
        rw [show serV (.arr (x :: t)) ++ rest = '[' :: (serElems (x :: t) ++ ']' :: rest) by
          simp [serV]]
        simp only [parseVal]
        rw [skipWs_cons _ _ (by decide)]
        simp only []
        rw [if_neg (by decide), if_pos (by decide)]
        rw [hsk2, hch, List.cons_append]
        simp only []
        rw [if_neg h93]
        rw [hch, List.cons_append] at hel
        rw [hel]
    | obj ms =>
      cases ms with
      | nil =>
        rw [show serV (.obj []) ++ rest = cLB :: cRB :: rest by simp [serV, serMembers]]
        simp only [parseVal]
        rw [skipWs_cons _ _ (by decide)]
        simp only []
        rw [if_pos (by decide)]
        rw [skipWs_cons _ _ (by decide)]
        simp only []
        rw [if_pos (by decide)]
      | cons m t =>
        obtain ⟨mt, hmt⟩ := serMembers_cons_head m t
        have hjm : jsizeM (m :: t) ≤ f := by
          simp only [jsize] at hj; omega
        have hlen : (m :: t).length ≤ f := by
          have := length_lt_jsizeM (m :: t); omega
        have hml := parseMembersWith_ser (parseVal f) (m :: t) f rest
          (List.cons_ne_nil m t) hlen
          (fun k v hv r hrr => ih v r (le_trans (jsize_le_jsizeM k v _ hv) hjm) hrr)
        have hsk2 : skipWs (serMembers (m :: t) ++ cRB :: rest)
            = serMembers (m :: t) ++ cRB :: rest := by
          rw [hmt, List.cons_append]
          exact skipWs_cons _ _ (by decide)
        rw [show serV (.obj (m :: t)) ++ rest = cLB :: (serMembers (m :: t) ++ cRB :: rest) by
          simp [serV]]
        simp only [parseVal]
        rw [skipWs_cons _ _ (by decide)]
        simp only []
        rw [if_pos (by decide)]
        rw [hsk2, hmt, List.cons_append]
        simp only []
        rw [if_neg (by decide)]
        rw [hmt, List.cons_append] at hml
        rw [hml]

/-! ## Helper lemmas: node count bounded by serialization length -/

/-- Node counts are bounded by serialization lengths, so length-based fuel
suffices for the parser. -/
theorem jsize_le_serLen : ∀ (n : Nat),
    (∀ J, jsize J ≤ n → jsize J ≤ (serV J).length) ∧
    (∀ xs, jsizeL xs ≤ n → jsizeL xs ≤ (serElems xs).length + 1) ∧
    (∀ ms, jsizeM ms ≤ n → jsizeM ms ≤ (serMembers ms).length + 1) := by
  intro n
  induction n with
  | zero =>
    refine ⟨fun J hj => ?_, fun xs hx => ?_, fun ms hm => ?_⟩
    · have := jsize_pos J; omega
    · have := jsizeL_pos xs; omega
    · have := jsizeM_pos ms; omega
  | succ n ih =>
    obtain ⟨ihV, ihL, ihM⟩ := ih
    refine ⟨fun J hj => ?_, fun xs hx => ?_, fun ms hm => ?_⟩
    · cases J with
      | null => simp [serV, jsize]
      | bool b => cases b <;> simp [serV, jsize]
      | num m =>
        obtain ⟨d, t, hc, _⟩ := natChars_head m.toNat
        obtain ⟨d2, t2, hc2, _⟩ := natChars_head m.natAbs
        simp only [jsize, serV, serInt]
        by_cases hneg : m < 0
        · simp [hneg, hc2]
        · simp [hneg, hc]
      | str s => simp [serV, serStr, jsize]
      | arr xs =>
        have hxs : jsizeL xs ≤ n := by simp only [jsize] at hj; omega
        have := ihL xs hxs
        simp only [jsize, serV]
        simp
        omega
      | obj ms =>
        have hms : jsizeM ms ≤ n := by simp only [jsize] at hj; omega
        have := ihM ms hms
        simp only [jsize, serV]
        simp
        omega
    · cases xs with
      | nil => simp [jsizeL, serElems]
      | cons x t =>
        have h1 : jsize x ≤ n := by
          have := jsizeL_pos t; simp only [jsizeL] at hx; omega
        have h2 : jsizeL t ≤ n := by
          have := jsize_pos x; simp only [jsizeL] at hx; omega
        have hv := ihV x h1
        cases t with
        | nil =>
          simp only [jsizeL, serElems]
          have := jsize_pos x
          omega
        | cons y u =>
          have hl := ihL (y :: u) h2
          simp only [jsizeL] at hl ⊢
          simp only [serElems, List.length_append, List.length_cons]
          omega
    · cases ms with
      | nil => simp [jsizeM, serMembers]
      | cons m t =>
        obtain ⟨k, v⟩ := m
        have h1 : jsize v ≤ n := by
          have := jsizeM_pos t; simp only [jsizeM] at hm; omega
        have h2 : jsizeM t ≤ n := by
          have := jsize_pos v; simp only [jsizeM] at hm; omega
        have hv := ihV v h1
        cases t with
        | nil =>
          simp only [jsizeM, serMembers]
          have := jsize_pos v
          simp only [List.length_append, List.length_cons]
          omega
        | cons m2 u =>
          have hl := ihM (m2 :: u) h2
          simp only [jsizeM] at hl ⊢
          simp only [serMembers, List.length_append, List.length_cons]
          omega

/-- `json_loads` inverts the serializer completely. -/
theorem json_loads_serV (J : Json) : json_loads (serV J) = some J := by
  have hb : jsize J ≤ (serV J).length := (jsize_le_serLen (jsize J)).1 J le_rfl
  have hmain := parseVal_serV ((serV J).length + 1) J [] (by omega) trivial
  rw [List.append_nil] at hmain
  rw [json_loads, hmain]
  rfl

/-! ## Helper lemmas: find, rfind and slicing -/

/-- `findAux` misses absent characters. -/
theorem findAux_not_mem (t : Char) : ∀ l : List Char, t ∉ l → findAux l t = none := by
  intro l
  induction l with
  | nil => intro _; rfl
  | cons c r ih =>
    intro h
    rw [findAux, if_neg (fun hc => h (by rw [← hc]; exact List.mem_cons_self c r)),
      ih (fun hr => h (List.mem_cons_of_mem c hr))]
    rfl

/-- `findAux` finds the first occurrence after a clean prefix. -/
theorem findAux_append_cons (t : Char) : ∀ (l1 : List Char) (r : List Char), t ∉ l1 →
    findAux (l1 ++ t :: r) t = some l1.length := by
  intro l1
  induction l1 with
  | nil => intro r _; simp [findAux]
  | cons c l ih =>
    intro r h
    rw [List.cons_append, findAux,
      if_neg (fun hc => h (by rw [← hc]; exact List.mem_cons_self c l)),
      ih r (fun hr => h (List.mem_cons_of_mem c hr))]
    rfl

/-- `rfindAux` misses absent characters. -/
theorem rfindAux_not_mem (t : Char) : ∀ l : List Char, t ∉ l → rfindAux l t = none := by
  intro l
  induction l with
  | nil => intro _; rfl
  | cons c r ih =>
    intro h
    rw [rfindAux, ih (fun hr => h (List.mem_cons_of_mem c hr))]
    simp only []
    rw [if_neg (fun hc => h (by rw [← hc]; exact List.mem_cons_self c r))]

/-- Appending characters without the target does not move the last
occurrence. -/
theorem rfindAux_append_right (t : Char) (r : List Char) (hr : t ∉ r) :
    ∀ l : List Char, rfindAux (l ++ r) t = rfindAux l t := by
  intro l
  induction l with
  | nil => simp [rfindAux_not_mem t r hr, rfindAux]
  | cons c l ih =>
    rw [List.cons_append, rfindAux, ih, rfindAux]

/-- The last occurrence in a list ending with the target is its last
index. -/
theorem rfindAux_snoc (t : Char) : ∀ l : List Char,
    rfindAux (l ++ [t]) t = some l.length := by
  intro l
  induction l with
  | nil => simp [rfindAux]
  | cons c l ih =>
    rw [List.cons_append, rfindAux, ih]
    simp

/-- Clamping an in-range natural index is the identity. -/
theorem clampIdx_natCast (len x : Nat) (hx : x ≤ len) : clampIdx len (x : Int) = x := by
  simp only [clampIdx]
  rw [show (if (x : Int) < 0 then (x : Int) + len else (x : Int)) = (x : Int) from
    if_neg (by omega)]
  rw [if_neg (by omega)]
  omega

/-- Slicing a middle segment by its exact bounds recovers it. -/
theorem pySlice_exact (l1 l2 l3 : List Char) :
    pySlice (l1 ++ l2 ++ l3) (l1.length : Int) ((l1.length : Int) + l2.length) = l2 := by
  simp only [pySlice]
  have hlen : (l1 ++ l2 ++ l3).length = l1.length + l2.length + l3.length := by
    rw [List.length_append, List.length_append]
  rw [hlen]
  rw [show ((l1.length : Int) + l2.length) = ((l1.length + l2.length : Nat) : Int) by
    push_cast; ring]
  rw [clampIdx_natCast _ _ (by omega), clampIdx_natCast _ _ (by omega)]
  rw [show l1 ++ l2 ++ l3 = l1 ++ (l2 ++ l3) by simp]
  rw [List.drop_left]
  rw [show l1.length + l2.length - l1.length = l2.length by omega]
  rw [List.take_left]

/-- The brace-to-brace slice of an embedded serialized object recovers
exactly the serialization. -/
theorem contractSlice_embed (ms : List (List Char × Json)) (pre suf : List Char)
    (hpre : cLB ∉ pre) (hsuf : cRB ∉ suf) :
    contractSlice (pre ++ serV (Json.obj ms) ++ suf) = serV (Json.obj ms) := by
  have hser : serV (Json.obj ms) = cLB :: serMembers ms ++ [cRB] := by simp [serV]
  have hfind : pyFind (pre ++ serV (Json.obj ms) ++ suf) cLB = (pre.length : Int) := by
    rw [pyFind]
    rw [show pre ++ serV (Json.obj ms) ++ suf
        = pre ++ cLB :: (serMembers ms ++ [cRB] ++ suf) by rw [hser]; simp]
    rw [findAux_append_cons cLB pre _ hpre]
  have hrfind : pyRfind (pre ++ serV (Json.obj ms) ++ suf) cRB
      = ((pre.length + 1 + (serMembers ms).length : Nat) : Int) := by
    rw [pyRfind]
    rw [show pre ++ serV (Json.obj ms) ++ suf
        = ((pre ++ cLB :: serMembers ms) ++ [cRB]) ++ suf by rw [hser]; simp]
    rw [rfindAux_append_right cRB suf hsuf, rfindAux_snoc]
    simp only []
    simp only [List.length_append, List.length_cons]
    omega
  have harith : (((pre.length + 1 + (serMembers ms).length : Nat) : Int) + 1)
      = (pre.length : Int) + ((serV (Json.obj ms)).length : Int) := by
    rw [hser]
    simp only [List.length_cons, List.length_append, List.length_singleton,
      List.length_nil]
    push_cast
    omega
  rw [contractSlice, hfind, hrfind, harith]
  exact pySlice_exact pre (serV (Json.obj ms)) suf

/-! ## Claim C2 -/

/-- Claim C2 (confirmed): for every JSON object and every prefix and suffix
text free of braces, the contract extraction (first left brace to last
right brace, then strict JSON parse) on the concatenation recovers an
object deep-equal to the original. -/
theorem c2_contract_extraction_roundtrip (ms : List (List Char × Json))
    (pre suf : List Char)
    (h1 : cLB ∉ pre) (h2 : cRB ∉ pre) (h3 : cLB ∉ suf) (h4 : cRB ∉ suf) :
    extract_contract (pre ++ serV (Json.obj ms) ++ suf) = some (Json.obj ms) := by
  rw [extract_contract, contractSlice_embed ms pre suf h1 h4, json_loads_serV]

/-- Witness for C2: a concrete contract wrapped in commentary text parses
back to itself. -/
theorem c2_contract_extraction_roundtrip_witness :
    extract_contract (['H', 'i', ':', ' ']
      ++ serV (Json.obj [(['s', 't', 'o', 'r', 'y'], Json.str ['x']),
                         (['c', 'h', 'a', 'r', 's'], Json.arr [Json.num 7])])
      ++ ['O', 'k'])
      = some (Json.obj [(['s', 't', 'o', 'r', 'y'], Json.str ['x']),
                        (['c', 'h', 'a', 'r', 's'], Json.arr [Json.num 7])]) :=
  c2_contract_extraction_roundtrip _ _ _
    (by decide) (by decide) (by decide) (by decide)

/-! ## Helper lemmas: missing-brace slices -/

/-- A found last index is within bounds. -/
theorem rfindAux_lt_length (t : Char) : ∀ (l : List Char) (i : Nat),
    rfindAux l t = some i → i < l.length := by
  intro l
  induction l with
  | nil => intro i h; simp [rfindAux] at h
  | cons c r ih =>
    intro i h
    rw [rfindAux] at h
    cases hr : rfindAux r t with
    | some j =>
      rw [hr] at h
      simp only [Option.some.injEq] at h
      have := ih j hr
      simp only [List.length_cons]
      omega
    | none =>
      rw [hr] at h
      simp only [] at h
      by_cases hc : c = t
      · rw [if_pos hc] at h
        simp only [Option.some.injEq] at h
        simp only [List.length_cons]
        omega
      · rw [if_neg hc] at h
        exact absurd h (by simp)

/-- The character at a found last index is the target. -/
theorem rfindAux_getD (t : Char) : ∀ (l : List Char) (i : Nat),
    rfindAux l t = some i → l.getD i ' ' = t := by
  intro l
  induction l with
  | nil => intro i h; simp [rfindAux] at h
  | cons c r ih =>
    intro i h
    rw [rfindAux] at h
    cases hr : rfindAux r t with
    | some j =>
      rw [hr] at h
      simp only [Option.some.injEq] at h
      subst h
      rw [List.getD_cons_succ]
      exact ih j hr
    | none =>
      rw [hr] at h
      simp only [] at h
      by_cases hc : c = t
      · rw [if_pos hc] at h
        simp only [Option.some.injEq] at h
        subst h
        rw [List.getD_cons_zero]
        exact hc
      · rw [if_neg hc] at h
        exact absurd h (by simp)

/-- Dropping all but the last element leaves exactly the last element. -/
theorem drop_length_pred (l : List Char) (h : l ≠ []) :
    l.drop (l.length - 1) = [l.getD (l.length - 1) ' '] := by
  induction l with
  | nil => exact absurd rfl h
  | cons c r ih =>
    cases r with
    | nil => rfl
    | cons c2 r2 =>
      have hne : (c2 :: r2) ≠ [] := List.cons_ne_nil c2 r2
      rw [show (c :: c2 :: r2).length - 1 = (c2 :: r2).length - 1 + 1 by
        simp only [List.length_cons]; omega]
      rw [List.drop_succ_cons, ih hne, List.getD_cons_succ]

/-- Clamping `-1` against a nonempty length gives the last index. -/
theorem clampIdx_neg_one (len : Nat) (h : 1 ≤ len) : clampIdx len (-1) = len - 1 := by
  simp only [clampIdx]
  rw [show (if (-1 : Int) < 0 then (-1 : Int) + len else -1) = -1 + len from
    if_pos (by omega)]
  rw [if_neg (by omega)]
  omega

/-! ## Claim C3 -/

/-- Claim C3 (confirmed): on input lacking a left brace or lacking a right
brace, both the slice-and-parse extraction and the guarded `Story3` scene
extraction return the `None` failure value - never a partial or guessed
object. -/
theorem c3_missing_braces_fail_closed (resp : List Char)
    (h : cLB ∉ resp ∨ cRB ∉ resp) :
    extract_contract resp = none ∧ scene_descriptions_extract resp = none := by
  rcases h with hl | hr
  · have hfind : pyFind resp cLB = -1 := by
      rw [pyFind, findAux_not_mem cLB resp hl]
    cases resp with
    | nil => exact ⟨rfl, rfl⟩
    | cons c t =>
      constructor
      · rw [extract_contract, contractSlice, hfind]
        simp only [pySlice]
        rw [clampIdx_neg_one _ (by simp)]
        cases hrf : rfindAux (c :: t) cRB with
        | none =>
          rw [show pyRfind (c :: t) cRB = -1 by rw [pyRfind, hrf]]
          rw [show clampIdx (c :: t).length ((-1 : Int) + 1) = 0 by
            rw [show ((-1 : Int) + 1) = ((0 : Nat) : Int) by norm_num]
            exact clampIdx_natCast _ 0 (by omega)]
          rw [show 0 - ((c :: t).length - 1) = 0 by omega, List.take_zero]
          rfl
        | some i =>
          have hi := rfindAux_lt_length cRB (c :: t) i hrf
          have hgd := rfindAux_getD cRB (c :: t) i hrf
          rw [show pyRfind (c :: t) cRB = (i : Int) by rw [pyRfind, hrf]]
          rw [show clampIdx (c :: t).length ((i : Int) + 1) = i + 1 by
            rw [show ((i : Int) + 1) = (((i + 1 : Nat)) : Int) by push_cast; ring]
            exact clampIdx_natCast _ (i + 1) (by omega)]
          by_cases hile : i + 1 ≤ (c :: t).length - 1
          · rw [show i + 1 - ((c :: t).length - 1) = 0 by omega, List.take_zero]
            rfl
          · have hieq : i = (c :: t).length - 1 := by omega
            rw [show i + 1 - ((c :: t).length - 1) = 1 by omega]
            rw [drop_length_pred (c :: t) (List.cons_ne_nil c t)]
            rw [show ((c :: t).getD ((c :: t).length - 1) ' ') = cRB by
              rw [← hieq]; exact hgd]
            rw [show List.take 1 [cRB] = [cRB] from rfl]
            rfl
      · simp only [scene_descriptions_extract, hfind]
        simp
  · have hrfind : pyRfind resp cRB = -1 := by
      rw [pyRfind, rfindAux_not_mem cRB resp hr]
    constructor
    · rw [extract_contract, contractSlice, hrfind]
      simp only [pySlice]
      rw [show clampIdx resp.length ((-1 : Int) + 1) = 0 by
        rw [show ((-1 : Int) + 1) = ((0 : Nat) : Int) by norm_num]
        exact clampIdx_natCast _ 0 (by omega)]
      rw [show 0 - clampIdx resp.length (pyFind resp cLB) = 0 by omega,
        List.take_zero]
      rfl
    · simp only [scene_descriptions_extract, hrfind]
      simp

/-- Witness for C3: a brace-free input and an input with only a right brace
both extract to `None`. -/
theorem c3_missing_braces_fail_closed_witness :
    extract_contract ['h', 'i'] = none ∧
    scene_descriptions_extract ['n', 'o', 'p', 'e'] = none :=
  ⟨(c3_missing_braces_fail_closed ['h', 'i'] (Or.inl (by decide))).1,
   (c3_missing_braces_fail_closed ['n', 'o', 'p', 'e'] (Or.inr (by decide))).2⟩

/-! ## Claims C5 and C10 -/

/-- Counterexample for C5: a contract containing neither `storyline` nor
`character_descriptions` still makes the GenerateStory operation succeed -
the handler checks only truthiness of the parsed object, not its keys. -/
theorem c5_counterexample :
    api_generate_story (.ok [cLB, cQ, 'f', 'o', 'o', cQ, ':', ' ', '1', cRB])
      = HttpResult.ok (Json.obj [(['f', 'o', 'o'], Json.num 1)]) ∧
    jsonGet (Json.obj [(['f', 'o', 'o'], Json.num 1)])
      ['s', 't', 'o', 'r', 'y', 'l', 'i', 'n', 'e'] = none ∧
    jsonGet (Json.obj [(['f', 'o', 'o'], Json.num 1)])
      ['c', 'h', 'a', 'r', 'a', 'c', 't', 'e', 'r', '_', 'd', 'e', 's', 'c',
       'r', 'i', 'p', 't', 'i', 'o', 'n', 's'] = none := by
  exact ⟨rfl, rfl, rfl⟩

/-- Claim C5 amended: the GenerateStory operation succeeds exactly when the
extracted text parses to a truthy value (for objects: a nonempty one); the
presence of `storyline` or a non-empty `character_descriptions` sequence is
not checked anywhere. -/
theorem c5_amended_truthiness_success (resp : List Char) (j : Json) :
    api_generate_story (.ok resp) = .ok j ↔
      (extract_contract resp = some j ∧ pyTruthy j = true) := by
  constructor
  · intro h
    rw [api_generate_story] at h
    simp only [generate_story_and_characters] at h
    cases he : extract_contract resp with
    | none =>
      rw [he] at h
      exact absurd h (by simp)
    | some j2 =>
      rw [he] at h
      simp only [] at h
      by_cases ht : pyTruthy j2
      · rw [if_pos ht] at h
        injection h with hji
        subst hji
        exact ⟨rfl, ht⟩
      · rw [if_neg ht] at h
        exact absurd h (by simp)
  · intro hpair
    obtain ⟨he, ht⟩ := hpair
    rw [api_generate_story]
    simp only [generate_story_and_characters, he]
    rw [if_pos ht]

/-- Witness for C5 amended: the backward direction applied to a concrete
one-key contract. -/
theorem c5_amended_truthiness_success_witness :
    api_generate_story (.ok [cLB, cQ, 'a', cQ, ':', '5', cRB])
      = .ok (Json.obj [(['a'], Json.num 5)]) :=
  (c5_amended_truthiness_success [cLB, cQ, 'a', cQ, ':', '5', cRB]
    (Json.obj [(['a'], Json.num 5)])).mpr ⟨rfl, rfl⟩

/-- Claim C10 (confirmed): the handler decision is Python truthiness of the
parsed contract - an extracted `\x7b\x7d` parses successfully yet yields
the 500 error, while any truthy parse result is returned as success
regardless of which keys it contains. -/
theorem c10_truthiness_decision :
    (∀ resp : List Char, extract_contract resp = some (Json.obj []) →
      api_generate_story (.ok resp)
        = .err 500 "Story generation failed on the server.") ∧
    (∀ (resp : List Char) (j : Json), extract_contract resp = some j →
      pyTruthy j = true → api_generate_story (.ok resp) = .ok j) := by
  constructor
  · intro resp he
    rw [api_generate_story]
    simp only [generate_story_and_characters, he]
    simp [pyTruthy]
  · intro resp j he ht
    rw [api_generate_story]
    simp only [generate_story_and_characters, he]
    rw [if_pos ht]

/-- Witness for C10: the literal two-brace response parses to the empty
object and the handler reports 500; a one-key object is returned with
success. -/
theorem c10_truthiness_decision_witness :
    api_generate_story (.ok [cLB, cRB])
      = .err 500 "Story generation failed on the server." ∧
    api_generate_story (.ok [cLB, cQ, 'k', cQ, ':', '2', cRB])
      = .ok (Json.obj [(['k'], Json.num 2)]) :=
  ⟨c10_truthiness_decision.1 [cLB, cRB] rfl,
   c10_truthiness_decision.2 [cLB, cQ, 'k', cQ, ':', '2', cRB]
     (Json.obj [(['k'], Json.num 2)]) rfl rfl⟩
